import Mathlib

/-!
Shallow embedding of the LinkPage ordered link collection manager
(`src/services/linkService.ts`, `src/utils/validation.ts`,
`src/utils/searchUtils.ts`, and the dashboard reorder handler), together
with proofs about the embedded operations.

The persistence collaborator (Supabase) is modelled as the list of rows of
the `links` table.  Each service call is one request/response round trip;
transport failures are injected through explicit `Option String` error
parameters (`none` = the request succeeds, `some m` = the backend reports
error message `m`).  Timestamp columns (`created_at`, `updated_at`) are
omitted: they are not part of the spec's LinkRecord data model and no
operation examined here reads them.
-/

instance {ε α : Type} [DecidableEq ε] [DecidableEq α] : DecidableEq (Except ε α) := fun x y =>
  match x, y with
  | .ok a, .ok b =>
      if h : a = b then isTrue (by rw [h]) else isFalse (fun hh => h (Except.ok.inj hh))
  | .error a, .error b =>
      if h : a = b then isTrue (by rw [h]) else isFalse (fun hh => h (Except.error.inj hh))
  | .ok _, .error _ => isFalse (fun hh => Except.noConfusion hh)
  | .error _, .ok _ => isFalse (fun hh => Except.noConfusion hh)

namespace LinkPage

/-- A row of the `links` table (see the schema in the repository's SQL file).
Timestamps omitted. -/
structure DbLink where
  id : String
  user_id : String
  title : String
  url : String
  icon_type : String
  icon_value : String
  display_order : Int
  is_enabled : Bool
  click_count : Int
deriving DecidableEq, Repr

/-- The `links` table: the persisted state the service operates on. -/
abbrev Store := List DbLink

/-- App-side record produced by `mapDbLinkToLinkItem` in `supabase.ts`
(camelCase field names; timestamps omitted). -/
structure LinkItem where
  id : String
  userId : String
  title : String
  url : String
  iconType : String
  iconValue : String
  displayOrder : Int
  isEnabled : Bool
  clickCount : Int
deriving DecidableEq, Repr

/-- `mapDbLinkToLinkItem` from `supabase.ts`: field-for-field renaming. -/
def mapDbLinkToLinkItem (r : DbLink) : LinkItem :=
  { id := r.id
    userId := r.user_id
    title := r.title
    url := r.url
    iconType := r.icon_type
    iconValue := r.icon_value
    displayOrder := r.display_order
    isEnabled := r.is_enabled
    clickCount := r.click_count }

/-- Ordering relation used by the `order by display_order ascending` clause. -/
def ole (a b : DbLink) : Prop := a.display_order ≤ b.display_order

instance : DecidableRel ole := fun a b => inferInstanceAs (Decidable (_ ≤ _))

instance : IsTotal DbLink ole := ⟨fun a b => Int.le_total a.display_order b.display_order⟩

instance : IsTrans DbLink ole := ⟨fun _ _ _ h1 h2 => Int.le_trans h1 h2⟩

/-- Strict version of `ole`, used to identify sorted lists uniquely. -/
def olt (a b : DbLink) : Prop := a.display_order < b.display_order

instance : IsAntisymm DbLink olt :=
  ⟨fun _ _ h1 h2 => absurd h2 (Int.not_lt.mpr (Int.le_of_lt h1))⟩

/-- `order by display_order ascending` on a result set, modelled as a stable
insertion sort (PostgreSQL returns equal keys in some order; a stable sort is
the canonical choice and all rows compared in the theorems below have distinct
keys). -/
def sortByOrder (l : List DbLink) : List DbLink := List.insertionSort ole l

/-- Descending ordering relation, used by `createLink`'s max-order query. -/
def oge (a b : DbLink) : Prop := b.display_order ≤ a.display_order

instance : DecidableRel oge := fun a b => inferInstanceAs (Decidable (_ ≤ _))

instance : IsTotal DbLink oge := ⟨fun a b => Int.le_total b.display_order a.display_order⟩

instance : IsTrans DbLink oge := ⟨fun _ _ _ h1 h2 => Int.le_trans h2 h1⟩

/-- `order by display_order descending`. -/
def sortByOrderDesc (l : List DbLink) : List DbLink := List.insertionSort oge l

/-- The rows belonging to one owner (`where user_id = uid`). -/
def rowsOf (db : Store) (uid : String) : Store :=
  db.filter (fun r => r.user_id == uid)

/-- `getLinks` from `linkService.ts`: select the owner's rows ordered by
`display_order` ascending and map them to `LinkItem`s.  `fetchErr` injects
the transport error of the round trip; the query itself cannot fail, a
non-existent or link-less owner simply produces an empty result set. -/
def getLinks (fetchErr : Option String) (db : Store) (userId : String) :
    Except String (List LinkItem) :=
  match fetchErr with
  | some m => .error ("Failed to fetch links: " ++ m)
  | none => .ok ((sortByOrder (rowsOf db userId)).map mapDbLinkToLinkItem)

/-- `getEnabledLinks` from `linkService.ts`: same query with the extra
`is_enabled = true` condition. -/
def getEnabledLinks (fetchErr : Option String) (db : Store) (userId : String) :
    Except String (List LinkItem) :=
  match fetchErr with
  | some m => .error ("Failed to fetch links: " ++ m)
  | none =>
      .ok ((sortByOrder (db.filter
        (fun r => r.user_id == userId && r.is_enabled == true))).map mapDbLinkToLinkItem)

/-! ### JavaScript string primitives

`String.prototype.trim` and `String.prototype.toLowerCase` are embedded as
structural recursion over the character list (the ASCII fragment of their
semantics; every string a claim mentions is ASCII). -/

/-- A character removed by JavaScript `trim()` (whitespace or line
terminator). -/
def isJsSpace (c : Char) : Bool :=
  c == ' ' || c == '\t' || c == '\n' || c == '\r' ||
    c == '\x0b' || c == '\x0c' || c == '\u00a0'

/-- Drops leading JS whitespace. -/
def dropLeadSpace : List Char → List Char
  | [] => []
  | c :: cs => if isJsSpace c then dropLeadSpace cs else c :: cs

/-- JavaScript `s.trim()`. -/
def jsTrim (s : String) : String :=
  ⟨(dropLeadSpace ((dropLeadSpace s.data).reverse)).reverse⟩

/-- ASCII lower-casing of one character (JS `toLowerCase` restricted to
ASCII). -/
def lowerChar (c : Char) : Char :=
  if 'A' ≤ c && c ≤ 'Z' then Char.ofNat (c.toNat + 32) else c

/-- JavaScript `s.toLowerCase()` (ASCII fragment). -/
def jsToLower (s : String) : String := ⟨s.data.map lowerChar⟩

/-! ### URL validation (`src/utils/validation.ts`) -/

/-- A character matched by the JavaScript regex metacharacter `.` (any
character except a line terminator: LF, CR, U+2028, U+2029). -/
def isRegexDotChar (c : Char) : Bool :=
  !(c == '\n' || c == '\r' || c == '\u2028' || c == '\u2029')

/-- The sub-pattern `\..+`: a literal dot followed by at least one
non-line-terminator character (the regex is unanchored at the right, so one
such character suffices). -/
def matchesDotTail : List Char → Bool
  | '.' :: c :: _ => isRegexDotChar c
  | _ => false

/-- The sub-pattern `.+\..+` matched against a prefix of the character list:
one or more non-line-terminator characters, a literal dot, then at least one
more non-line-terminator character. -/
def matchesBodyAux : List Char → Bool
  | [] => false
  | c :: cs => isRegexDotChar c && (matchesDotTail cs || matchesBodyAux cs)

/-- Strips a literal character prefix, returning the remainder on success. -/
def stripLitChars : List Char → List Char → Option (List Char)
  | [], cs => some cs
  | p :: ps, c :: cs => if c == p then stripLitChars ps cs else none
  | _ :: _, [] => none

/-- `URL_PATTERN.test(s)` for `URL_PATTERN = /^https?:\/\/.+\..+/`: the string
must start with `http://` or `https://` followed by `.+\..+`. -/
def urlPatternTest (s : String) : Bool :=
  match stripLitChars "https://".data s.data with
  | some rest => matchesBodyAux rest
  | none =>
      match stripLitChars "http://".data s.data with
      | some rest => matchesBodyAux rest
      | none => false

/-- `validateUrl` from `validation.ts`: a falsy (empty) string is rejected,
otherwise the pattern is tested against the trimmed string. -/
def validateUrl (url : String) : Bool :=
  if url = "" then false
  else urlPatternTest (jsTrim url)

/-! ### Search filter (`src/utils/searchUtils.ts`) -/

/-- `needle` is a prefix of `hay` (character lists). -/
def charsHaveLead : List Char → List Char → Bool
  | [], _ => true
  | _ :: _, [] => false
  | a :: as, b :: bs => a == b && charsHaveLead as bs

/-- `hay` contains `need` as a contiguous run, i.e. JavaScript
`hay.includes(need)` on the character level. -/
def charsContain (need : List Char) : List Char → Bool
  | [] => charsHaveLead need []
  | b :: rest => charsHaveLead need (b :: rest) || charsContain need rest

/-- JavaScript `hay.includes(needle)`. -/
def strIncludes (hay needle : String) : Bool := charsContain needle.data hay.data

/-- `filterLinksBySearch` from `searchUtils.ts`, generic in the record type
exactly as the TypeScript generic `<T extends { title: string }>` is, with
`titleOf` playing the role of the `.title` field access. -/
def filterLinksBySearch {T : Type} (titleOf : T → String)
    (links : List T) (searchQuery : String) : List T :=
  if jsTrim searchQuery = "" then links
  else
    let query := jsTrim (jsToLower searchQuery)
    links.filter (fun l => strIncludes (jsToLower (titleOf l)) query)

/-! ### Mutating service calls (`src/services/linkService.ts`) -/

/-- The message of the local URL-validation error thrown by `createLink` and
`updateLink`. -/
def urlErrorMsg : String :=
  "Invalid URL format. URL must start with http:// or https://"

/-- Input of `createLink` (`CreateLinkInput` in `types.ts`). -/
structure CreateLinkInput where
  userId : String
  title : String
  url : String
  iconType : String
  iconValue : String
deriving DecidableEq, Repr

/-- Input of `updateLink` (`UpdateLinkInput` in `types.ts`): every field
optional, `none` = the field is not supplied. -/
structure UpdateLinkInput where
  title : Option String := none
  url : Option String := none
  iconType : Option String := none
  iconValue : Option String := none
  isEnabled : Option Bool := none
deriving DecidableEq, Repr

/-- `createLink`: validate the URL locally, read the owner's maximum
`display_order` (query ordered descending, limit 1), then insert a row with
`display_order` = max + 1 (or 0 for an empty collection).  `newId` is the id
the database generates for the inserted row; `is_enabled` and `click_count`
take their schema defaults `true` and `0`.  `insertErr` injects a failure of
the insert round trip (the preceding read's error is ignored by the code,
which only destructures `data`). -/
def createLink (insertErr : Option String) (db : Store) (newId : String)
    (input : CreateLinkInput) : Except String LinkItem × Store :=
  if !validateUrl input.url then (.error urlErrorMsg, db)
  else
    let existingOrders :=
      ((sortByOrderDesc (rowsOf db input.userId)).map (fun r => r.display_order)).take 1
    let nextOrder : Int :=
      match existingOrders with
      | [] => 0
      | o :: _ => o + 1
    match insertErr with
    | some m => (.error ("Failed to create link: " ++ m), db)
    | none =>
        let row : DbLink :=
          { id := newId
            user_id := input.userId
            title := input.title
            url := input.url
            icon_type := input.iconType
            icon_value := input.iconValue
            display_order := nextOrder
            is_enabled := true
            click_count := 0 }
        (.ok (mapDbLinkToLinkItem row), db ++ [row])

/-- The patch `updateLink` applies to the matched row: exactly the supplied
fields overwrite, omitted fields keep their value; `display_order` and
`click_count` are never part of the patch. -/
def applyUpdate (input : UpdateLinkInput) (r : DbLink) : DbLink :=
  { r with
    title := input.title.getD r.title
    url := input.url.getD r.url
    icon_type := input.iconType.getD r.icon_type
    icon_value := input.iconValue.getD r.icon_value
    is_enabled := input.isEnabled.getD r.is_enabled }

/-- `updateLink`: if a URL is supplied it is validated locally first; then the
patch is applied to the rows matching `id = linkId` and the updated row is
returned (`.single()` makes an empty match set an error).  `updErr` injects a
failure of the update round trip. -/
def updateLink (updErr : Option String) (db : Store) (linkId : String)
    (input : UpdateLinkInput) : Except String LinkItem × Store :=
  if input.url.any (fun u => !validateUrl u) then (.error urlErrorMsg, db)
  else
    match updErr with
    | some m => (.error ("Failed to update link: " ++ m), db)
    | none =>
        match db.find? (fun r => r.id == linkId) with
        | none =>
            (.error
              "Failed to update link: JSON object requested, multiple (or no) rows returned",
              db)
        | some r =>
            (.ok (mapDbLinkToLinkItem (applyUpdate input r)),
              db.map (fun s => if s.id == linkId then applyUpdate input s else s))

/-- `deleteLink`: delete the rows matching `id = linkId`; no renumbering of
the remaining rows.  `delErr` injects a failure of the delete round trip. -/
def deleteLink (delErr : Option String) (db : Store) (linkId : String) :
    Except String Unit × Store :=
  match delErr with
  | some m => (.error ("Failed to delete link: " ++ m), db)
  | none => (.ok (), db.filter (fun r => !(r.id == linkId)))

/-- One positional write of `reorderLinks`:
`update({display_order: ord}).eq('id', linkId).eq('user_id', userId)` — only
rows matching both conditions are touched, so an id not owned by `userId`
matches nothing and the write silently has no effect. -/
def setOrderWrite (db : Store) (linkId userId : String) (ord : Int) : Store :=
  db.map (fun r =>
    if r.id == linkId && r.user_id == userId then { r with display_order := ord } else r)

/-- All positional writes of a reorder batch, one per id, position `i` giving
`display_order = i`.  `fail lid = some m` means the write for `lid` fails with
message `m` and leaves the store unchanged; all writes are issued regardless
(`Promise.all` settles every promise before errors are inspected). -/
def applyReorderWrites (fail : String → Option String) (userId : String) :
    List String → Nat → Store → Store
  | [], _, db => db
  | lid :: rest, i, db =>
      applyReorderWrites fail userId rest (i + 1)
        (match fail lid with
         | some _ => db
         | none => setOrderWrite db lid userId (Int.ofNat i))

/-- The first error among the batch results, in batch order. -/
def firstReorderError (fail : String → Option String) : List String → Option String
  | [] => none
  | lid :: rest =>
      match fail lid with
      | some m => some m
      | none => firstReorderError fail rest

/-- `reorderLinks`: run every positional write, then fail with the first
reported error if any write failed. -/
def reorderLinks (fail : String → Option String) (db : Store) (userId : String)
    (linkIds : List String) : Except String Unit × Store :=
  let db2 := applyReorderWrites fail userId linkIds 0 db
  match firstReorderError fail linkIds with
  | some m => (.error ("Failed to reorder links: " ++ m), db2)
  | none => (.ok (), db2)

/-- `handleReorderLinks` from the dashboard page: set the local list to the
reordered one optimistically, call `reorderLinks`, and on failure re-fetch the
authoritative list and replace the local state with it (the re-fetch round
trip is taken to succeed; if it also failed the optimistic list would simply
remain on screen).  Returns the final store and the final local list. -/
def handleReorderLinks (fail : String → Option String) (db : Store)
    (profileId : String) (reordered : List LinkItem) : Store × List LinkItem :=
  let step := reorderLinks fail db profileId (reordered.map (fun l => l.id))
  match step.1 with
  | .ok _ => (step.2, reordered)
  | .error _ =>
      match getLinks none step.2 profileId with
      | .ok fetched => (step.2, fetched)
      | .error _ => (step.2, reordered)

/-- An error is a `ReorderFailed` error when it carries the reorder failure
message prefix. -/
def isReorderFailed (e : String) : Bool :=
  charsHaveLead "Failed to reorder links: ".data e.data

/-- Payload the LinkForm submits to the dashboard (`LinkFormData` in
`types.ts`). -/
structure LinkFormData where
  title : String
  url : String
  iconType : String
  iconValue : String
deriving DecidableEq, Repr

/-- `handleSubmit` of the LinkForm component: the guard
`if (!title.trim() || !validateUrl(url)) return;` makes the form **silently**
refuse a submission whose title is empty after trimming (or whose URL is
invalid) — no error of any kind is produced and the service is never called;
otherwise `onSubmit` receives the **trimmed** title and url.  `none` = the
silent early return, `some data` = the payload handed to `onSubmit` (which
the dashboard forwards to `createLink` / `updateLink`). -/
def linkFormHandleSubmit (title url iconType iconValue : String) : Option LinkFormData :=
  if jsTrim title = "" || !validateUrl url then none
  else some { title := jsTrim title, url := jsTrim url, iconType := iconType,
              iconValue := iconValue }

/-! ### Derived notions used by the invariants -/

/-- The multiset of `display_order` values of one owner's rows, in store
order. -/
def ordersOf (db : Store) (uid : String) : List Int :=
  (rowsOf db uid).map (fun r => r.display_order)

/-- The owner's `order` values are a contiguous permutation of `0..n-1`. -/
def contiguousOrders (db : Store) (uid : String) : Prop :=
  (ordersOf db uid).Perm ((List.range (ordersOf db uid).length).map Int.ofNat)

instance (db : Store) (uid : String) : Decidable (contiguousOrders db uid) :=
  inferInstanceAs (Decidable (List.Perm _ _))

/-- Whether an owner id exists in the `profiles` table (modelled as the list
of profile ids).  `getLinks` never consults this table. -/
def ownerExists (profiles : List String) (uid : String) : Bool :=
  profiles.contains uid

/-- Pointwise effect of a complete reorder batch on one row (characterizes
`applyReorderWrites` for a duplicate-free id list, proved below): a row of the
owner whose id occurs in the batch receives the index of its id as the new
`display_order`; every other row is untouched. -/
def reorderedRow (uid : String) (ids : List String) (i : Nat) (r : DbLink) : DbLink :=
  if r.user_id == uid && List.elem r.id ids then
    { r with display_order := Int.ofNat (i + ids.indexOf r.id) }
  else r

/-- The unique row of the store carrying a given id (default row when the id
is absent; the theorems below only use it under a membership hypothesis). -/
def findRowD (db : Store) (pid : String) : DbLink :=
  (db.find? (fun r => r.id == pid)).getD ⟨"", "", "", "", "", "", 0, false, 0⟩

/-- A minimal record type with a `title` field, instantiating the TypeScript
generic `<T extends { title: string }>` the way the concrete scenarios in the
spec do. -/
structure Titled where
  title : String
deriving DecidableEq, Repr

/-! ## Theorems -/

/-- C5 (counterexample): the claim states that for a non-whitespace-only
query the filter keeps exactly the records whose lower-cased title contains
the lower-cased query.  For the query `"Git "` (trailing blank) the
lower-cased title `"github"` does **not** contain the lower-cased query
`"git "`, so the claim predicts the record is dropped — but the code trims
the query before matching and keeps it. -/
theorem filterLinksBySearch_untrimmed_query_cex :
    filterLinksBySearch Titled.title [⟨"GitHub"⟩] "Git " = [⟨"GitHub"⟩] ∧
    jsTrim "Git " ≠ "" ∧
    strIncludes (jsToLower "GitHub") (jsToLower "Git ") = false := by
  decide

/-- C5 (amended): for an empty-after-trim query the filter is the identity;
otherwise it keeps exactly the records whose lower-cased title contains the
**trimmed** lower-cased query, as a stable filter of the input (no re-sort,
no other effect). -/
theorem filterLinksBySearch_spec {T : Type} (titleOf : T → String)
    (links : List T) (q : String) :
    (jsTrim q = "" → filterLinksBySearch titleOf links q = links) ∧
    (jsTrim q ≠ "" →
      filterLinksBySearch titleOf links q =
        links.filter (fun l => strIncludes (jsToLower (titleOf l)) (jsTrim (jsToLower q)))) := by
  constructor
  · intro h
    simp [filterLinksBySearch, h]
  · intro h
    simp [filterLinksBySearch, h]

/-- C5 (witness): the amended statement evaluated on the spec's concrete
scenario `filterByTitle([{title:"GitHub"},{title:"YouTube"}], "git")` and on a
whitespace-only query. -/
theorem filterLinksBySearch_spec_witness :
    filterLinksBySearch Titled.title [⟨"GitHub"⟩, ⟨"YouTube"⟩] "git" = [⟨"GitHub"⟩] ∧
    filterLinksBySearch Titled.title [⟨"GitHub"⟩, ⟨"YouTube"⟩] "  " =
      [⟨"GitHub"⟩, ⟨"YouTube"⟩] := by
  have h1 := (filterLinksBySearch_spec Titled.title [⟨"GitHub"⟩, ⟨"YouTube"⟩] "git").2
  have h2 := (filterLinksBySearch_spec Titled.title [⟨"GitHub"⟩, ⟨"YouTube"⟩] "  ").1
  constructor
  · rw [h1 (by decide)]; decide
  · exact h2 (by decide)

/-- C6 (counterexample): the claim states that a string not matching
`^https?://.+\..+` is rejected with `InvalidInput`.  The string
`" http://a.b"` (leading blank) does not match the anchored pattern, yet
`createLink` succeeds, because the code tests the pattern against the
**trimmed** string. -/
theorem createLink_untrimmed_url_cex :
    urlPatternTest " http://a.b" = false ∧
    (createLink none [] "N" ⟨"u", "t", " http://a.b", "predefined", "globe"⟩).1 =
      Except.ok (mapDbLinkToLinkItem
        ⟨"N", "u", "t", " http://a.b", "predefined", "globe", 0, true, 0⟩) := by
  decide

/-- C6 (amended): a URL that is empty or whose trimmed form does not match
`^https?://.+\..+` makes `createLink` / `updateLink` fail with the local
`InvalidInput` error and an unchanged store, for **any** outcome of the
backend write (the rejection happens before any network call); a URL whose
trimmed form matches the pattern lets the call succeed when the backend write
succeeds (and, for update, the target row exists).  The last conjunct ties
`validateUrl` to the pattern-on-trimmed-string reading. -/
theorem urlValidation_spec :
    (∀ (insertErr : Option String) (db : Store) (newId : String) (input : CreateLinkInput),
      validateUrl input.url = false →
        createLink insertErr db newId input = (.error urlErrorMsg, db)) ∧
    (∀ (updErr : Option String) (db : Store) (linkId : String) (input : UpdateLinkInput)
        (u : String),
      input.url = some u → validateUrl u = false →
        updateLink updErr db linkId input = (.error urlErrorMsg, db)) ∧
    (∀ (db : Store) (newId : String) (input : CreateLinkInput),
      validateUrl input.url = true →
        ∃ item, (createLink none db newId input).1 = .ok item) ∧
    (∀ (db : Store) (linkId : String) (input : UpdateLinkInput) (u : String) (r : DbLink),
      input.url = some u → validateUrl u = true →
        db.find? (fun s => s.id == linkId) = some r →
        ∃ item, (updateLink none db linkId input).1 = .ok item) ∧
    (∀ url : String, validateUrl url = (url != "" && urlPatternTest (jsTrim url))) := by
  refine ⟨?_, ?_, ?_, ?_, ?_⟩
  · intro insertErr db newId input h
    simp [createLink, h]
  · intro updErr db linkId input u hu h
    simp [updateLink, hu, Option.any, h]
  · intro db newId input h
    simp only [createLink, h, Bool.not_true]
    exact ⟨_, rfl⟩
  · intro db linkId input u r hu h hfind
    simp only [updateLink, hu, Option.any, h, Bool.not_true, hfind]
    exact ⟨_, rfl⟩
  · intro url
    by_cases h : url = ""
    · simp [validateUrl, h]
    · simp [validateUrl, h]

/-- C6 (witness): the amended statement evaluated on the spec's concrete
scenario `create(owner,"My Site","ftp://example.com","globe")` (wrong scheme,
rejected even with a healthy backend) and on a valid URL. -/
theorem urlValidation_spec_witness :
    createLink (some "backend down") [] "N" ⟨"u", "My Site", "ftp://example.com", "predefined", "globe"⟩ =
      (.error urlErrorMsg, []) ∧
    (∃ item, (createLink none [] "N" ⟨"u", "t", "https://example.com", "predefined", "globe"⟩).1 =
      .ok item) := by
  constructor
  · exact urlValidation_spec.1 (some "backend down") [] "N" _ (by decide)
  · exact urlValidation_spec.2.2.1 [] "N" _ (by decide)

/-! ### Stability of the sort: sorting commutes with filtering -/

/-- Filtering distributes over an ordered insertion into a sorted list. -/
theorem filter_orderedInsert (p : DbLink → Bool) (a : DbLink) :
    ∀ l : List DbLink, List.Sorted ole l →
      (List.orderedInsert ole a l).filter p =
        if p a then List.orderedInsert ole a (l.filter p) else l.filter p := by
  intro l
  induction l with
  | nil =>
      intro _
      by_cases hpa : p a <;> simp [List.orderedInsert, hpa]
  | cons b l ih =>
      intro hs
      have hsl : List.Sorted ole l := hs.of_cons
      by_cases hab : ole a b
      · rw [List.orderedInsert_of_le ole _ hab]
        by_cases hpa : p a
        · by_cases hpb : p b
          · simp only [List.filter_cons, hpa, hpb, if_pos, if_true]
            rw [List.orderedInsert_of_le ole _ hab]
          · simp only [List.filter_cons, hpa, hpb, if_true, if_false, Bool.false_eq_true,
              if_pos]
            cases hfl : l.filter p with
            | nil => simp [List.orderedInsert]
            | cons c cs =>
                have hcl : c ∈ l := by
                  have : c ∈ l.filter p := by rw [hfl]; exact List.mem_cons_self c cs
                  exact List.mem_of_mem_filter this
                have hac : ole a c :=
                  Int.le_trans hab (List.rel_of_sorted_cons hs c hcl)
                rw [List.orderedInsert_of_le ole _ hac]
        · by_cases hpb : p b <;> simp [List.filter_cons, hpa, hpb]
      · rw [List.orderedInsert, if_neg hab]
        have ihs := ih hsl
        by_cases hpa : p a
        · by_cases hpb : p b
          · simp only [List.filter_cons, hpb, if_true, hpa, ihs, if_pos]
            rw [List.orderedInsert, if_neg hab]
          · simp only [List.filter_cons, hpb, Bool.false_eq_true, if_false, ihs, hpa, if_pos]
        · by_cases hpb : p b <;> simp [List.filter_cons, hpa, hpb, ihs]

/-- The stable sort commutes with filtering. -/
theorem filter_sortByOrder (p : DbLink → Bool) :
    ∀ l : List DbLink, (sortByOrder l).filter p = sortByOrder (l.filter p) := by
  intro l
  induction l with
  | nil => rfl
  | cons a l ih =>
      show (List.orderedInsert ole a (List.insertionSort ole l)).filter p = _
      rw [filter_orderedInsert p a _ (List.sorted_insertionSort ole l)]
      by_cases hpa : p a
      · rw [if_pos hpa, List.filter_cons, if_pos hpa]
        show _ = List.orderedInsert ole a (List.insertionSort ole (l.filter p))
        rw [show (List.insertionSort ole l).filter p = sortByOrder (l.filter p) from ih]
        rfl
      · rw [if_neg hpa, List.filter_cons, if_neg (by simpa using hpa)]
        exact ih

/-- C3: for every transport outcome, owner and store, `getEnabledLinks` is
exactly the `isEnabled` filter of `getLinks` — the same records in the same
relative order, with no separate sort (visibility partition). -/
theorem getEnabledLinks_eq_filter_getLinks (fetchErr : Option String) (db : Store)
    (uid : String) :
    getEnabledLinks fetchErr db uid =
      Except.map (fun items => items.filter (fun it => it.isEnabled)) (getLinks fetchErr db uid) := by
  cases fetchErr with
  | some m => rfl
  | none =>
      simp only [getEnabledLinks, getLinks, Except.map]
      congr 1
      have h1 : ((fun (it : LinkItem) => it.isEnabled) ∘ mapDbLinkToLinkItem)
          = fun (r : DbLink) => r.is_enabled := by
        funext r
        rfl
      rw [List.filter_map, h1, filter_sortByOrder, rowsOf, List.filter_filter]
      apply congrArg (List.map mapDbLinkToLinkItem)
      apply congrArg sortByOrder
      apply List.filter_congr
      intro r _
      cases hru : r.user_id == uid <;> cases hen : r.is_enabled <;> simp [hru, hen]

/-- C10 (counterexample): the claim states `list` fails with `NotFound` iff
the owner does not exist.  For an owner id absent from the profiles table,
`getLinks` — which never consults that table — returns an empty `ok` result,
not an error. -/
theorem getLinks_no_notFound_cex :
    ownerExists [] "ghost" = false ∧ getLinks none [] "ghost" = Except.ok [] := by
  decide

/-- C10 (amended): when the transport succeeds, `getLinks` always returns an
`ok` list sorted ascending by `displayOrder` — for any owner id with no rows,
existing or not, the empty list rather than an error; it fails only when the
transport itself reports an error, and then with the persistence message,
never with `NotFound`. -/
theorem getLinks_spec (db : Store) (uid : String) :
    (∃ items, getLinks none db uid = .ok items ∧
        List.Sorted (fun a b : LinkItem => a.displayOrder ≤ b.displayOrder) items) ∧
    (rowsOf db uid = [] → getLinks none db uid = .ok []) ∧
    (∀ m, getLinks (some m) db uid = .error ("Failed to fetch links: " ++ m)) := by
  refine ⟨⟨(sortByOrder (rowsOf db uid)).map mapDbLinkToLinkItem, rfl, ?_⟩, ?_, fun m => rfl⟩
  · have hs : List.Sorted ole (sortByOrder (rowsOf db uid)) :=
      List.sorted_insertionSort ole (rowsOf db uid)
    rw [List.Sorted, List.pairwise_map]
    exact hs
  · intro h
    simp [getLinks, h, sortByOrder]

/-- C10 (witness): the amended statement evaluated on a one-row store: the
stranger `v` gets `ok []`, not an error. -/
theorem getLinks_spec_witness :
    getLinks none [⟨"A", "u", "a", "http://a.b", "predefined", "globe", 0, true, 0⟩] "v" =
      .ok [] := by
  exact (getLinks_spec [⟨"A", "u", "a", "http://a.b", "predefined", "globe", 0, true, 0⟩] "v").2.1
    (by decide)

/-- C9 (counterexample): the claim states a create call with an
empty-after-trim title fails with `InvalidInput` and such a record is never
created.  The service performs no title validation at all: `createLink` with
the title `"   "` (empty after trimming) and a valid URL succeeds and inserts
the record as-is. -/
theorem createLink_no_title_validation_cex :
    (createLink none [] "N" ⟨"u", "   ", "http://a.b", "predefined", "globe"⟩).1 =
      .ok (mapDbLinkToLinkItem ⟨"N", "u", "   ", "http://a.b", "predefined", "globe", 0, true, 0⟩) ∧
    (createLink none [] "N" ⟨"u", "   ", "http://a.b", "predefined", "globe"⟩).2 =
      [⟨"N", "u", "   ", "http://a.b", "predefined", "globe", 0, true, 0⟩] ∧
    jsTrim "   " = "" := by
  decide

/-- C9 (amended): the empty-title guard lives in the LinkForm, and it is
silent, not an `InvalidInput` failure.  (service) `createLink` performs no
title validation: with a valid URL it succeeds and stores the title exactly
as given, empty or not.  (form) when the title is empty after trimming,
`handleSubmit` returns without submitting — the service and the network are
never reached, but no error is raised either.  (form) when `handleSubmit`
does submit, the payload carries the trimmed title and trimmed url, the
trimmed title being non-empty and the URL valid. -/
theorem linkForm_title_guard :
    (∀ (db : Store) (newId : String) (input : CreateLinkInput),
        validateUrl input.url = true →
        ∃ item, (createLink none db newId input).1 = .ok item ∧ item.title = input.title) ∧
    (∀ (title url iconType iconValue : String),
        jsTrim title = "" →
        linkFormHandleSubmit title url iconType iconValue = none) ∧
    (∀ (title url iconType iconValue : String) (d : LinkFormData),
        linkFormHandleSubmit title url iconType iconValue = some d →
        d.title = jsTrim title ∧ d.url = jsTrim url ∧ jsTrim title ≠ "" ∧
          validateUrl url = true) := by
  refine ⟨?_, ?_, ?_⟩
  · intro db newId input hurl
    cases hS : sortByOrderDesc (rowsOf db input.userId) with
    | nil =>
        have hcreate : (createLink none db newId input).1 =
            .ok (mapDbLinkToLinkItem ⟨newId, input.userId, input.title, input.url,
              input.iconType, input.iconValue, 0, true, 0⟩) := by
          unfold createLink
          rw [if_neg (by rw [hurl]; simp), hS]
          rfl
        exact ⟨_, hcreate, rfl⟩
    | cons h t =>
        have hcreate : (createLink none db newId input).1 =
            .ok (mapDbLinkToLinkItem ⟨newId, input.userId, input.title, input.url,
              input.iconType, input.iconValue, h.display_order + 1, true, 0⟩) := by
          unfold createLink
          rw [if_neg (by rw [hurl]; simp), hS]
          rfl
        exact ⟨_, hcreate, rfl⟩
  · intro title url iconType iconValue h
    rw [linkFormHandleSubmit, if_pos]
    rw [h]
    simp
  · intro title url iconType iconValue d h
    rw [linkFormHandleSubmit] at h
    by_cases hguard : (jsTrim title = "" || !validateUrl url) = true
    · rw [if_pos hguard] at h
      exact absurd h (by simp)
    · rw [if_neg hguard] at h
      have hg : ¬(jsTrim title = "") ∧ validateUrl url = true := by
        rcases Bool.or_eq_false_iff.mp (Bool.not_eq_true _ |>.mp hguard) with ⟨h1, h2⟩
        exact ⟨by simpa using h1, by simpa using h2⟩
      rw [← Option.some.inj h]
      exact ⟨rfl, rfl, hg.1, hg.2⟩

/-- C9 (witness): the amended conjuncts evaluated concretely — the service
stores the whitespace title `"   "` untouched; the form silently refuses it;
the form submits `" My Site "` / `" http://a.b "` as their trimmed forms. -/
theorem linkForm_title_guard_witness :
    (∃ item, (createLink none [] "N" ⟨"u", "   ", "http://a.b", "predefined", "globe"⟩).1 =
        .ok item ∧ item.title = "   ") ∧
    linkFormHandleSubmit "   " "http://a.b" "predefined" "globe" = none ∧
    (∀ d : LinkFormData,
        linkFormHandleSubmit " My Site " " http://a.b " "predefined" "globe" = some d →
        d.title = "My Site" ∧ d.url = "http://a.b") := by
  refine ⟨?_, ?_, ?_⟩
  · exact linkForm_title_guard.1 [] "N" ⟨"u", "   ", "http://a.b", "predefined", "globe"⟩
      (by decide)
  · exact linkForm_title_guard.2.1 "   " "http://a.b" "predefined" "globe" (by decide)
  · intro d hd
    have h := (linkForm_title_guard.2.2 " My Site " " http://a.b " "predefined" "globe" d hd)
    exact ⟨h.1.trans (by decide), h.2.1.trans (by decide)⟩

/-- C8: `updateLink` applies exactly the supplied subset of fields.  First
conjunct: a supplied URL failing validation rejects the update as a whole with
`InvalidInput` — no field applied, store unchanged, for any backend outcome.
Second conjunct: on success the new store patches exactly the rows matching
the id and nothing else.  Third conjunct: the patch overwrites precisely the
supplied fields, keeps every omitted field, and never alters `display_order`
(nor id, owner or click count). -/
theorem updateLink_partial_fields (db : Store) (linkId : String) (input : UpdateLinkInput) :
    (∀ (updErr : Option String) (u : String), input.url = some u → validateUrl u = false →
        updateLink updErr db linkId input = (.error urlErrorMsg, db)) ∧
    (∀ (item : LinkItem) (db2 : Store), updateLink none db linkId input = (.ok item, db2) →
        db2 = db.map (fun s => if s.id == linkId then applyUpdate input s else s)) ∧
    (∀ r : DbLink,
        (applyUpdate input r).id = r.id ∧
        (applyUpdate input r).user_id = r.user_id ∧
        (applyUpdate input r).display_order = r.display_order ∧
        (applyUpdate input r).click_count = r.click_count ∧
        (applyUpdate input r).title = input.title.getD r.title ∧
        (applyUpdate input r).url = input.url.getD r.url ∧
        (applyUpdate input r).icon_type = input.iconType.getD r.icon_type ∧
        (applyUpdate input r).icon_value = input.iconValue.getD r.icon_value ∧
        (applyUpdate input r).is_enabled = input.isEnabled.getD r.is_enabled) := by
  refine ⟨?_, ?_, ?_⟩
  · intro updErr u hu hv
    simp [updateLink, hu, Option.any, hv]
  · intro item db2 h
    by_cases hbad : input.url.any (fun u => !validateUrl u)
    · rw [updateLink, if_pos hbad] at h
      exact absurd (congrArg Prod.fst h) (by simp)
    · rw [updateLink, if_neg hbad] at h
      cases hfind : db.find? (fun r => r.id == linkId) with
      | none =>
          rw [hfind] at h
          exact absurd (congrArg Prod.fst h) (by simp)
      | some r =>
          rw [hfind] at h
          exact (congrArg Prod.snd h).symm
  · intro r
    exact ⟨rfl, rfl, rfl, rfl, rfl, rfl, rfl, rfl, rfl⟩

/-- C8 (witness): the conjuncts evaluated concretely — a bad URL rejects the
whole update with the store unchanged even with a failing backend; a
title-only update patches only the matching row; the patch keeps
`display_order` and the omitted fields of a sample row. -/
theorem updateLink_partial_fields_witness :
    updateLink (some "down") [⟨"A", "u", "a", "http://a.b", "predefined", "globe", 0, true, 0⟩]
        "A" { url := some "nope" } =
      (.error urlErrorMsg, [⟨"A", "u", "a", "http://a.b", "predefined", "globe", 0, true, 0⟩]) ∧
    [⟨"A", "u", "a", "http://a.b", "predefined", "globe", 0, true, 0⟩,
        ⟨"B", "u", "b", "http://b.c", "predefined", "globe", 1, false, 0⟩].map
      (fun s => if s.id == "B" then applyUpdate { title := some "bb" } s else s) =
      [⟨"A", "u", "a", "http://a.b", "predefined", "globe", 0, true, 0⟩,
        ⟨"B", "u", "bb", "http://b.c", "predefined", "globe", 1, false, 0⟩] ∧
    (applyUpdate { title := some "bb" }
        ⟨"B", "u", "b", "http://b.c", "predefined", "globe", 1, false, 0⟩).display_order = 1 := by
  refine ⟨?_, ?_, ?_⟩
  · exact (updateLink_partial_fields _ "A" _).1 (some "down") "nope" rfl (by decide)
  · have h := (updateLink_partial_fields
      [⟨"A", "u", "a", "http://a.b", "predefined", "globe", 0, true, 0⟩,
        ⟨"B", "u", "b", "http://b.c", "predefined", "globe", 1, false, 0⟩]
      "B" { title := some "bb" }).2.1
      (mapDbLinkToLinkItem ⟨"B", "u", "bb", "http://b.c", "predefined", "globe", 1, false, 0⟩)
      [⟨"A", "u", "a", "http://a.b", "predefined", "globe", 0, true, 0⟩,
        ⟨"B", "u", "bb", "http://b.c", "predefined", "globe", 1, false, 0⟩]
      (by decide)
    rw [← h]
  · have h := ((updateLink_partial_fields [] "B" { title := some "bb" }).2.2
      ⟨"B", "u", "b", "http://b.c", "predefined", "globe", 1, false, 0⟩).2.2.1
    exact h

/-- The head of the descending sort is a maximum of the list. -/
theorem sortByOrderDesc_head_max (l : List DbLink) (h : DbLink) (t : List DbLink)
    (heq : sortByOrderDesc l = h :: t) :
    h ∈ l ∧ ∀ r ∈ l, r.display_order ≤ h.display_order := by
  have hperm := List.perm_insertionSort oge l
  rw [sortByOrderDesc] at heq
  constructor
  · have hmem : h ∈ List.insertionSort oge l := by
      rw [heq]
      exact List.mem_cons_self h t
    exact hperm.mem_iff.mp hmem
  · intro r hr
    have hrs : r ∈ List.insertionSort oge l := hperm.mem_iff.mpr hr
    rw [heq] at hrs
    rcases List.mem_cons.mp hrs with heq2 | hrt
    · rw [heq2]
    · have hsorted := List.sorted_insertionSort oge l
      rw [heq] at hsorted
      exact List.rel_of_sorted_cons hsorted r hrt

/-- C4: for a valid URL and a healthy backend, `createLink` succeeds, the
owner's collection grows by exactly one row (hence `list` by one element:
first conjunct bridges list length and row count), and the created record's
`order` is the previous maximum order + 1, or 0 if the owner's collection
was empty. -/
theorem createLink_append_invariant (db : Store) (newId : String) (input : CreateLinkInput)
    (hurl : validateUrl input.url = true) :
    (∀ (d : Store) (items : List LinkItem), getLinks none d input.userId = .ok items →
        items.length = (rowsOf d input.userId).length) ∧
    ∃ item, (createLink none db newId input).1 = .ok item ∧
      (rowsOf (createLink none db newId input).2 input.userId).length =
        (rowsOf db input.userId).length + 1 ∧
      (rowsOf db input.userId = [] → item.displayOrder = 0) ∧
      (rowsOf db input.userId ≠ [] →
        ∃ m, m ∈ ordersOf db input.userId ∧ (∀ o ∈ ordersOf db input.userId, o ≤ m) ∧
          item.displayOrder = m + 1) := by
  constructor
  · intro d items hitems
    have h2 : Except.ok ((sortByOrder (rowsOf d input.userId)).map mapDbLinkToLinkItem) =
        Except.ok (ε := String) items := hitems
    rw [← Except.ok.inj h2, List.length_map, sortByOrder, List.length_insertionSort]
  cases hS : sortByOrderDesc (rowsOf db input.userId) with
  | nil =>
      have hempty : rowsOf db input.userId = [] := by
        have hl := List.length_insertionSort oge (rowsOf db input.userId)
        rw [show List.insertionSort oge (rowsOf db input.userId)
              = sortByOrderDesc (rowsOf db input.userId) from rfl, hS] at hl
        exact List.length_eq_zero.mp hl.symm
      have hcreate : createLink none db newId input =
          (.ok (mapDbLinkToLinkItem ⟨newId, input.userId, input.title, input.url,
              input.iconType, input.iconValue, 0, true, 0⟩),
            db ++ [⟨newId, input.userId, input.title, input.url,
              input.iconType, input.iconValue, 0, true, 0⟩]) := by
        unfold createLink
        rw [if_neg (by rw [hurl]; simp), hS]
        rfl
      refine ⟨_, by rw [hcreate], ?_, fun _ => rfl, fun hne => absurd hempty hne⟩
      rw [hcreate]
      show (rowsOf (db ++ [_]) input.userId).length = _
      rw [rowsOf, List.filter_append, ← rowsOf, List.length_append]
      simp [rowsOf]
  | cons h t =>
      have hmax := sortByOrderDesc_head_max (rowsOf db input.userId) h t hS
      have hne : rowsOf db input.userId ≠ [] := by
        intro habs
        rw [habs] at hS
        exact List.noConfusion hS
      have hcreate : createLink none db newId input =
          (.ok (mapDbLinkToLinkItem ⟨newId, input.userId, input.title, input.url,
              input.iconType, input.iconValue, h.display_order + 1, true, 0⟩),
            db ++ [⟨newId, input.userId, input.title, input.url,
              input.iconType, input.iconValue, h.display_order + 1, true, 0⟩]) := by
        unfold createLink
        rw [if_neg (by rw [hurl]; simp), hS]
        rfl
      refine ⟨_, by rw [hcreate], ?_, fun habs => absurd habs hne, fun _ => ?_⟩
      · rw [hcreate]
        show (rowsOf (db ++ [_]) input.userId).length = _
        rw [rowsOf, List.filter_append, ← rowsOf, List.length_append]
        simp [rowsOf]
      · refine ⟨h.display_order, ?_, ?_, rfl⟩
        · exact List.mem_map_of_mem (fun r => r.display_order) hmax.1
        · intro o ho
          rcases List.mem_map.mp ho with ⟨r, hr, hro⟩
          rw [← hro]
          exact hmax.2 r hr

/-- C4 (witness): creating a link for an owner with orders `{0, 1}` assigns
order 2 and grows the owner's row count from 2 to 3. -/
theorem createLink_append_invariant_witness :
    ∃ item, (createLink none
        [⟨"A", "u", "a", "http://a.b", "predefined", "globe", 0, true, 0⟩,
         ⟨"B", "u", "b", "http://b.c", "predefined", "globe", 1, false, 0⟩]
        "N" ⟨"u", "t", "http://n.m", "predefined", "globe"⟩).1 = .ok item ∧
      (rowsOf (createLink none
        [⟨"A", "u", "a", "http://a.b", "predefined", "globe", 0, true, 0⟩,
         ⟨"B", "u", "b", "http://b.c", "predefined", "globe", 1, false, 0⟩]
        "N" ⟨"u", "t", "http://n.m", "predefined", "globe"⟩).2 "u").length = 2 + 1 := by
  rcases (createLink_append_invariant
      [⟨"A", "u", "a", "http://a.b", "predefined", "globe", 0, true, 0⟩,
       ⟨"B", "u", "b", "http://b.c", "predefined", "globe", 1, false, 0⟩]
      "N" ⟨"u", "t", "http://n.m", "predefined", "globe"⟩ (by decide)).2 with
    ⟨item, h1, h2, _, _⟩
  exact ⟨item, h1, by rw [h2]; rfl⟩

/-! ### Characterizing a complete reorder batch -/

/-- With no injected failures the batch reports no error. -/
theorem firstReorderError_none (ids : List String) :
    firstReorderError (fun _ => none) ids = none := by
  induction ids with
  | nil => rfl
  | cons lid rest ih => exact ih

/-- The batch never changes a row's id. -/
theorem reorderedRow_id (uid : String) (ids : List String) (i : Nat) (r : DbLink) :
    (reorderedRow uid ids i r).id = r.id := by
  unfold reorderedRow
  split <;> rfl

/-- The batch never changes a row's owner. -/
theorem reorderedRow_user_id (uid : String) (ids : List String) (i : Nat) (r : DbLink) :
    (reorderedRow uid ids i r).user_id = r.user_id := by
  unfold reorderedRow
  split <;> rfl

/-- A duplicate-free sequence of positional writes acts pointwise on the
store: each owned row whose id occurs in the list receives the offset index
of its id, all other rows stay as they are. -/
theorem applyReorderWrites_eq_map (uid : String) :
    ∀ (ids : List String), ids.Nodup → ∀ (i : Nat) (db : Store),
      applyReorderWrites (fun _ => none) uid ids i db = db.map (reorderedRow uid ids i) := by
  intro ids
  induction ids with
  | nil =>
      intro _ i db
      show db = db.map (reorderedRow uid [] i)
      rw [show reorderedRow uid [] i = id from ?_, List.map_id]
      funext r
      show reorderedRow uid [] i r = r
      unfold reorderedRow
      simp [List.elem]
  | cons lid rest ih =>
      intro hnd i db
      have hlid : lid ∉ rest := (List.nodup_cons.mp hnd).1
      have hrest : rest.Nodup := (List.nodup_cons.mp hnd).2
      show applyReorderWrites (fun _ => none) uid rest (i + 1)
          (setOrderWrite db lid uid (Int.ofNat i)) = db.map (reorderedRow uid (lid :: rest) i)
      rw [ih hrest (i + 1) (setOrderWrite db lid uid (Int.ofNat i)), setOrderWrite,
        List.map_map]
      apply List.map_congr_left
      intro r _
      show reorderedRow uid rest (i + 1)
          (if r.id == lid && r.user_id == uid
            then { r with display_order := Int.ofNat i } else r) =
        reorderedRow uid (lid :: rest) i r
      by_cases hid : r.id = lid
      · by_cases huser : r.user_id = uid
        · rw [if_pos (by simp [hid, huser])]
          have hnotin : r.id ∉ rest := by
            rw [hid]
            exact hlid
          unfold reorderedRow
          rw [if_neg (by simp [hnotin]), if_pos (by simp [huser, hid]),
            show List.indexOf r.id (lid :: rest) = 0 from by
              rw [hid]
              exact List.indexOf_cons_self lid rest]
          simp
        · rw [if_neg (by simp [huser])]
          unfold reorderedRow
          rw [if_neg (by simp [huser]), if_neg (by simp [huser])]
      · rw [if_neg (by simp [hid])]
        unfold reorderedRow
        have hidx : List.indexOf r.id (lid :: rest) = (List.indexOf r.id rest) + 1 :=
          List.indexOf_cons_ne rest (fun h => hid h.symm)
        by_cases huser : r.user_id = uid
        · by_cases hmem : r.id ∈ rest
          · rw [if_pos (by simp [huser, hmem]), if_pos (by simp [huser, hmem, hid]), hidx,
              show i + (List.indexOf r.id rest + 1) = i + 1 + List.indexOf r.id rest from by
                omega]
          · rw [if_neg (by simp [hmem]), if_neg (by simp [hmem, hid])]
        · rw [if_neg (by simp [huser]), if_neg (by simp [huser])]

/-- In a store with globally unique ids, `find?` by the id of a member row
returns exactly that row. -/
theorem find?_id_eq_some (db : Store) (hglobal : (db.map (fun r => r.id)).Nodup) :
    ∀ r ∈ db, db.find? (fun s => s.id == r.id) = some r := by
  induction db with
  | nil =>
      intro r hr
      cases hr
  | cons s ds ih =>
      intro r hr
      rw [List.map_cons, List.nodup_cons] at hglobal
      rcases List.mem_cons.mp hr with heq | hrd
      · rw [heq]
        exact List.find?_cons_of_pos ds (by simp)
      · have hne : s.id ≠ r.id := by
          intro habs
          exact hglobal.1 (habs ▸ List.mem_map_of_mem (fun t => t.id) hrd)
        rw [List.find?_cons_of_neg ds (by simp [hne])]
        exact ih hglobal.2 r hrd

/-- `findRowD` applied to a member row's id recovers the row. -/
theorem findRowD_of_mem (db : Store) (hglobal : (db.map (fun r => r.id)).Nodup)
    (r : DbLink) (hr : r ∈ db) : findRowD db r.id = r := by
  rw [findRowD, find?_id_eq_some db hglobal r hr, Option.getD]

/-- In a duplicate-free list, earlier elements have smaller indices. -/
theorem pairwise_indexOf_lt (p : List String) (h : p.Nodup) :
    p.Pairwise (fun a b => p.indexOf a < p.indexOf b) := by
  rw [List.pairwise_iff_get]
  intro i j hij
  have hix : ∀ k : Fin p.length, p.indexOf (p.get k) = k.1 := by
    intro k
    have hlt : p.indexOf (p.get k) < p.length :=
      List.indexOf_lt_length.mpr (List.get_mem p k.1 k.2)
    have hgk : p.get ⟨p.indexOf (p.get k), hlt⟩ = p.get k := List.indexOf_get hlt
    have := (List.Nodup.get_inj_iff h).mp hgk
    exact congrArg Fin.val this
  rw [hix i, hix j]
  exact hij

/-- Filtering by owner commutes with the pointwise reorder map (which never
changes a row's owner). -/
theorem rowsOf_map_reorderedRow (db : Store) (uid : String) (p : List String) :
    rowsOf (db.map (reorderedRow uid p 0)) uid = (rowsOf db uid).map (reorderedRow uid p 0) := by
  rw [rowsOf, rowsOf, List.filter_map]
  congr 1
  apply List.filter_congr
  intro r _
  show ((reorderedRow uid p 0 r).user_id == uid) = (r.user_id == uid)
  rw [reorderedRow_user_id]

/-- The owner's rows carry duplicate-free ids when the whole store does. -/
theorem rowsOf_ids_nodup (db : Store) (uid : String)
    (hglobal : (db.map (fun r => r.id)).Nodup) :
    ((rowsOf db uid).map (fun r => r.id)).Nodup :=
  List.Nodup.sublist (List.Sublist.map (fun r => r.id) (List.filter_sublist db)) hglobal

/-- Over a permutation `p` of the owner's id set, `findRowD` recovers
exactly the owner's original rows. -/
theorem findRowD_props (db : Store) (uid : String) (p : List String)
    (hglobal : (db.map (fun r => r.id)).Nodup)
    (hperm : p.Perm ((rowsOf db uid).map (fun r => r.id))) :
    ∀ pid ∈ p, (findRowD db pid).id = pid ∧ findRowD db pid ∈ rowsOf db uid := by
  intro pid hpid
  have hmem : pid ∈ (rowsOf db uid).map (fun r => r.id) := hperm.mem_iff.mp hpid
  rcases List.mem_map.mp hmem with ⟨r, hr, hrid⟩
  have hrdb : r ∈ db := (List.mem_filter.mp hr).1
  rw [← hrid, findRowD_of_mem db hglobal r hrdb]
  exact ⟨rfl, hr⟩

/-- The store after a fully successful reorder batch is the pointwise map. -/
theorem reorder_db2 (db : Store) (uid : String) (p : List String) (hpnd : p.Nodup) :
    (reorderLinks (fun _ => none) db uid p).2 = db.map (reorderedRow uid p 0) := by
  rw [reorderLinks, firstReorderError_none]
  exact applyReorderWrites_eq_map uid p hpnd 0 db

/-- The owner's rows are, up to permutation, the `findRowD` image of `p`. -/
theorem rowsOf_perm_map_findRowD (db : Store) (uid : String) (p : List String)
    (hglobal : (db.map (fun r => r.id)).Nodup)
    (hperm : p.Perm ((rowsOf db uid).map (fun r => r.id))) :
    (rowsOf db uid).Perm (p.map (findRowD db)) := by
  have hself : (rowsOf db uid).map (findRowD db ∘ fun r => r.id) = rowsOf db uid := by
    refine (List.map_congr_left ?_).trans (List.map_id (rowsOf db uid))
    intro r hr
    show findRowD db r.id = id r
    exact findRowD_of_mem db hglobal r (List.mem_filter.mp hr).1
  have h1 := (hperm.symm).map (findRowD db)
  rw [List.map_map, hself] at h1
  exact h1

/-- Applying the batch to the recovered rows gives the claim's target list:
each original record with `display_order` replaced by its position in `p`. -/
theorem map_reorderedRow_target (db : Store) (uid : String) (p : List String)
    (hglobal : (db.map (fun r => r.id)).Nodup)
    (hperm : p.Perm ((rowsOf db uid).map (fun r => r.id))) :
    (p.map (findRowD db)).map (reorderedRow uid p 0) =
      p.map (fun pid => { findRowD db pid with display_order := Int.ofNat (p.indexOf pid) }) := by
  rw [List.map_map]
  apply List.map_congr_left
  intro pid hpid
  rcases findRowD_props db uid p hglobal hperm pid hpid with ⟨hid, hmem⟩
  show reorderedRow uid p 0 (findRowD db pid) = _
  unfold reorderedRow
  rw [if_pos]
  · rw [show List.indexOf (findRowD db pid).id p = List.indexOf pid p from by rw [hid],
      Nat.zero_add]
  · have huser : ((findRowD db pid).user_id == uid) = true := (List.mem_filter.mp hmem).2
    rw [huser, hid, Bool.true_and]
    exact List.elem_iff.mpr hpid

/-- C2: for a duplicate-free store and any permutation `p` of the owner's
current id set, the reorder call succeeds, and `list` afterwards returns
exactly the records of `p`, in the order of `p`, each being its original
record (second conjunct: `findRowD` recovers the owner's original rows) with
`display_order` replaced by its 0-based position in `p` and every other field
unchanged. -/
theorem reorderLinks_content_preservation (db : Store) (uid : String) (p : List String)
    (hglobal : (db.map (fun r => r.id)).Nodup)
    (hperm : p.Perm ((rowsOf db uid).map (fun r => r.id))) :
    (reorderLinks (fun _ => none) db uid p).1 = .ok () ∧
    (∀ pid ∈ p, (findRowD db pid).id = pid ∧ findRowD db pid ∈ rowsOf db uid) ∧
    getLinks none (reorderLinks (fun _ => none) db uid p).2 uid =
      .ok ((p.map (fun pid =>
        { findRowD db pid with display_order := Int.ofNat (p.indexOf pid) })).map
          mapDbLinkToLinkItem) := by
  have hpnd : p.Nodup := (hperm.symm).nodup (rowsOf_ids_nodup db uid hglobal)
  have hok : (reorderLinks (fun _ => none) db uid p).1 = .ok () := by
    rw [reorderLinks, firstReorderError_none]
  refine ⟨hok, findRowD_props db uid p hglobal hperm, ?_⟩
  rw [reorder_db2 db uid p hpnd, getLinks]
  show Except.ok _ = Except.ok _
  congr 1
  apply congrArg (List.map mapDbLinkToLinkItem)
  rw [rowsOf_map_reorderedRow]
  have hSperm : (sortByOrder ((rowsOf db uid).map (reorderedRow uid p 0))).Perm
      (p.map (fun pid =>
        { findRowD db pid with display_order := Int.ofNat (p.indexOf pid) })) := by
    refine (List.perm_insertionSort ole _).trans ?_
    rw [← map_reorderedRow_target db uid p hglobal hperm]
    exact (rowsOf_perm_map_findRowD db uid p hglobal hperm).map (reorderedRow uid p 0)
  have hTsorted : List.Pairwise olt (p.map (fun pid =>
      { findRowD db pid with display_order := Int.ofNat (p.indexOf pid) })) := by
    rw [List.pairwise_map]
    exact (pairwise_indexOf_lt p hpnd).imp (fun hab => Int.ofNat_lt.mpr hab)
  have hSsorted : List.Pairwise olt (sortByOrder ((rowsOf db uid).map (reorderedRow uid p 0))) := by
    have hle : List.Pairwise ole (sortByOrder ((rowsOf db uid).map (reorderedRow uid p 0))) :=
      List.sorted_insertionSort ole _
    have hTne : ((p.map (fun pid =>
        { findRowD db pid with display_order := Int.ofNat (p.indexOf pid) })).map
          (fun r => r.display_order)).Nodup :=
      List.pairwise_map.mpr (hTsorted.imp (fun hab => Int.ne_of_lt hab))
    have hSne : ((sortByOrder ((rowsOf db uid).map (reorderedRow uid p 0))).map
        (fun r => r.display_order)).Nodup :=
      ((hSperm.map (fun r => r.display_order)).symm).nodup hTne
    have hSne2 : List.Pairwise (fun a b : DbLink => a.display_order ≠ b.display_order)
        (sortByOrder ((rowsOf db uid).map (reorderedRow uid p 0))) :=
      List.pairwise_map.mp hSne
    exact (hle.and hSne2).imp (fun hab => lt_of_le_of_ne hab.1 hab.2)
  exact List.eq_of_perm_of_sorted hSperm hSsorted hTsorted

/-- C2 (witness): the spec's concrete scenario — collection
`[{A,0},{B,1},{C,2}]`, `reorder(u, [C,A,B])` succeeds, yields orders
`{C:0, A:1, B:2}` and `list` returns `[C,A,B]`. -/
theorem reorderLinks_content_preservation_witness :
    (reorderLinks (fun _ => none)
      [⟨"A", "u", "a", "http://a.b", "predefined", "globe", 0, true, 0⟩,
       ⟨"B", "u", "b", "http://b.c", "predefined", "globe", 1, false, 0⟩,
       ⟨"C", "u", "c", "http://c.d", "predefined", "globe", 2, true, 0⟩]
      "u" ["C", "A", "B"]).1 = .ok () ∧
    getLinks none (reorderLinks (fun _ => none)
      [⟨"A", "u", "a", "http://a.b", "predefined", "globe", 0, true, 0⟩,
       ⟨"B", "u", "b", "http://b.c", "predefined", "globe", 1, false, 0⟩,
       ⟨"C", "u", "c", "http://c.d", "predefined", "globe", 2, true, 0⟩]
      "u" ["C", "A", "B"]).2 "u" =
      .ok [mapDbLinkToLinkItem ⟨"C", "u", "c", "http://c.d", "predefined", "globe", 0, true, 0⟩,
           mapDbLinkToLinkItem ⟨"A", "u", "a", "http://a.b", "predefined", "globe", 1, true, 0⟩,
           mapDbLinkToLinkItem ⟨"B", "u", "b", "http://b.c", "predefined", "globe", 2, false, 0⟩] := by
  have h := reorderLinks_content_preservation
    [⟨"A", "u", "a", "http://a.b", "predefined", "globe", 0, true, 0⟩,
     ⟨"B", "u", "b", "http://b.c", "predefined", "globe", 1, false, 0⟩,
     ⟨"C", "u", "c", "http://c.d", "predefined", "globe", 2, true, 0⟩]
    "u" ["C", "A", "B"] (by decide) (by decide)
  refine ⟨h.1, ?_⟩
  rw [h.2.2]
  decide

/-! ### Contiguity of the order values -/

/-- In a duplicate-free list, the index of the `k`-th element is `k`. -/
theorem indexOf_get_self (p : List String) (h : p.Nodup) (k : Fin p.length) :
    p.indexOf (p.get k) = k.1 := by
  have hlt : p.indexOf (p.get k) < p.length :=
    List.indexOf_lt_length.mpr (List.get_mem p k.1 k.2)
  have hgk : p.get ⟨p.indexOf (p.get k), hlt⟩ = p.get k := List.indexOf_get hlt
  exact congrArg Fin.val ((List.Nodup.get_inj_iff h).mp hgk)

/-- Mapping each element of a duplicate-free list to its own index yields
exactly `0, 1, …, n-1`. -/
theorem map_indexOf_eq_range (p : List String) (h : p.Nodup) :
    p.map (fun pid => Int.ofNat (p.indexOf pid)) = (List.range p.length).map Int.ofNat := by
  apply List.ext_get
  · rw [List.length_map, List.length_map, List.length_range]
  · intro n h1 h2
    rw [List.get_map, List.get_map]
    congr 1
    rw [indexOf_get_self p h]
    exact (List.get_range n _).symm

/-- A pointwise store map that keeps owners and order values keeps every
owner's order list. -/
theorem ordersOf_map_eq (db : Store) (uid : String) (f : DbLink → DbLink)
    (hu : ∀ r, (f r).user_id = r.user_id) (ho : ∀ r, (f r).display_order = r.display_order) :
    ordersOf (db.map f) uid = ordersOf db uid := by
  rw [ordersOf, ordersOf, rowsOf, rowsOf, List.filter_map]
  rw [show ((fun r => r.user_id == uid) ∘ f) = fun r => r.user_id == uid from
    funext (fun r => by show ((f r).user_id == uid) = _; rw [hu r])]
  rw [List.map_map]
  apply List.map_congr_left
  intro r _
  exact ho r

/-- Appending an owned row appends its order value to the owner's orders. -/
theorem ordersOf_append_owner (db : Store) (uid : String) (r : DbLink)
    (h : r.user_id = uid) :
    ordersOf (db ++ [r]) uid = ordersOf db uid ++ [r.display_order] := by
  simp [ordersOf, rowsOf, List.filter_append, h]

/-- C1 (counterexample): the claim includes deletion among the mutations that
keep the owner's orders a contiguous `0..n-1`.  Deleting the order-0 link of
an owner whose orders are `{0, 1}` completes successfully but leaves the
orders at `{1}`: deletion does not renumber, so contiguity is lost. -/
theorem deleteLink_breaks_contiguity_cex :
    contiguousOrders
      [⟨"A", "u", "a", "http://a.b", "predefined", "globe", 0, true, 0⟩,
       ⟨"B", "u", "b", "http://b.c", "predefined", "globe", 1, false, 0⟩] "u" ∧
    (deleteLink none
      [⟨"A", "u", "a", "http://a.b", "predefined", "globe", 0, true, 0⟩,
       ⟨"B", "u", "b", "http://b.c", "predefined", "globe", 1, false, 0⟩] "A").1 = .ok () ∧
    ¬ contiguousOrders
      (deleteLink none
        [⟨"A", "u", "a", "http://a.b", "predefined", "globe", 0, true, 0⟩,
         ⟨"B", "u", "b", "http://b.c", "predefined", "globe", 1, false, 0⟩] "A").2 "u" := by
  refine ⟨by decide, rfl, by decide⟩

/-- C1 (amended): the contiguity invariant holds after create, update/toggle
and complete reorder, but not after delete.  (create) a successful create on
a contiguous collection keeps it contiguous; (update/toggle) a successful
update never changes any owner's order values; (reorder) a complete
duplicate-free reorder makes the orders exactly `0..n-1` unconditionally.
Deletion is excluded: it leaves a gap (see the counterexample). -/
theorem contiguity_after_mutations :
    (∀ (db : Store) (newId : String) (input : CreateLinkInput),
        validateUrl input.url = true → contiguousOrders db input.userId →
        contiguousOrders (createLink none db newId input).2 input.userId) ∧
    (∀ (updErr : Option String) (db : Store) (linkId : String) (input : UpdateLinkInput)
        (uid : String) (item : LinkItem) (db2 : Store),
        updateLink updErr db linkId input = (.ok item, db2) →
        ordersOf db2 uid = ordersOf db uid) ∧
    (∀ (db : Store) (uid : String) (p : List String),
        (db.map (fun r => r.id)).Nodup →
        p.Perm ((rowsOf db uid).map (fun r => r.id)) →
        contiguousOrders (reorderLinks (fun _ => none) db uid p).2 uid) := by
  refine ⟨?_, ?_, ?_⟩
  · intro db newId input hurl hcont
    cases hS : sortByOrderDesc (rowsOf db input.userId) with
    | nil =>
        have hempty : rowsOf db input.userId = [] := by
          have hl := List.length_insertionSort oge (rowsOf db input.userId)
          rw [show List.insertionSort oge (rowsOf db input.userId)
                = sortByOrderDesc (rowsOf db input.userId) from rfl, hS] at hl
          exact List.length_eq_zero.mp hl.symm
        have hdb2 : (createLink none db newId input).2 =
            db ++ [⟨newId, input.userId, input.title, input.url,
              input.iconType, input.iconValue, 0, true, 0⟩] := by
          unfold createLink
          rw [if_neg (by rw [hurl]; simp), hS]
          rfl
        unfold contiguousOrders
        rw [hdb2, ordersOf_append_owner db input.userId _ rfl,
          show ordersOf db input.userId = [] from by rw [ordersOf, hempty]; rfl]
        show ([(0 : Int)]).Perm ((List.range 1).map Int.ofNat)
        decide
    | cons h t =>
        have hmax := sortByOrderDesc_head_max (rowsOf db input.userId) h t hS
        have hdb2 : (createLink none db newId input).2 =
            db ++ [⟨newId, input.userId, input.title, input.url,
              input.iconType, input.iconValue, h.display_order + 1, true, 0⟩] := by
          unfold createLink
          rw [if_neg (by rw [hurl]; simp), hS]
          rfl
        have hmemord : h.display_order ∈ ordersOf db input.userId :=
          List.mem_map_of_mem (fun r => r.display_order) hmax.1
        have hbound : ∀ o ∈ ordersOf db input.userId, o ≤ h.display_order := by
          intro o ho
          rcases List.mem_map.mp ho with ⟨r, hr, hro⟩
          rw [← hro]
          exact hmax.2 r hr
        rcases List.mem_map.mp (hcont.mem_iff.mp hmemord) with ⟨k, hk, hkeq⟩
        have hkn : k < (ordersOf db input.userId).length := List.mem_range.mp hk
        have hsucc : k + 1 = (ordersOf db input.userId).length := by
          by_contra hne2
          have hkn2 : k + 1 < (ordersOf db input.userId).length := by omega
          have hin : Int.ofNat (k + 1) ∈ ordersOf db input.userId :=
            hcont.mem_iff.mpr (List.mem_map_of_mem Int.ofNat (List.mem_range.mpr hkn2))
          have hle := hbound _ hin
          rw [← hkeq] at hle
          exact absurd (Int.ofNat_le.mp hle) (by omega)
        have hordnew : h.display_order + 1 = Int.ofNat ((ordersOf db input.userId).length) := by
          rw [← hsucc, ← hkeq]
          rfl
        unfold contiguousOrders
        rw [hdb2, ordersOf_append_owner db input.userId _ rfl]
        rw [List.length_append, List.length_cons, List.length_nil, List.range_succ,
          List.map_append]
        exact hcont.append (hordnew ▸ List.Perm.refl _)
  · intro updErr db linkId input uid item db2 h
    cases updErr with
    | some m =>
        by_cases hbad : input.url.any (fun u => !validateUrl u)
        · rw [updateLink, if_pos hbad] at h
          exact absurd (congrArg Prod.fst h) (by simp)
        · rw [updateLink, if_neg hbad] at h
          exact absurd (congrArg Prod.fst h) (by simp)
    | none =>
        by_cases hbad : input.url.any (fun u => !validateUrl u)
        · rw [updateLink, if_pos hbad] at h
          exact absurd (congrArg Prod.fst h) (by simp)
        · rw [updateLink, if_neg hbad] at h
          cases hfind : db.find? (fun r => r.id == linkId) with
          | none =>
              rw [hfind] at h
              exact absurd (congrArg Prod.fst h) (by simp)
          | some r =>
              rw [hfind] at h
              have hdb2 : db2 =
                  db.map (fun s => if s.id == linkId then applyUpdate input s else s) :=
                (congrArg Prod.snd h).symm
              rw [hdb2]
              refine ordersOf_map_eq db uid _ ?_ ?_ <;>
                intro s <;> by_cases hc : (s.id == linkId) = true <;>
                  simp [hc, applyUpdate]
  · intro db uid p hglobal hperm
    have hpnd : p.Nodup := (hperm.symm).nodup (rowsOf_ids_nodup db uid hglobal)
    have hordperm : (ordersOf (reorderLinks (fun _ => none) db uid p).2 uid).Perm
        ((List.range p.length).map Int.ofNat) := by
      rw [reorder_db2 db uid p hpnd, ordersOf, rowsOf_map_reorderedRow]
      have h1 : ((rowsOf db uid).map (reorderedRow uid p 0)).Perm
          ((p.map (findRowD db)).map (reorderedRow uid p 0)) :=
        (rowsOf_perm_map_findRowD db uid p hglobal hperm).map _
      have hA := h1.map (fun r => r.display_order)
      rw [map_reorderedRow_target db uid p hglobal hperm] at hA
      have hC : ((p.map (fun pid =>
          { findRowD db pid with display_order := Int.ofNat (p.indexOf pid) })).map
            (fun r => r.display_order)) = (List.range p.length).map Int.ofNat := by
        rw [List.map_map]
        exact map_indexOf_eq_range p hpnd
      rw [hC] at hA
      exact hA
    unfold contiguousOrders
    have hlen : (ordersOf (reorderLinks (fun _ => none) db uid p).2 uid).length = p.length := by
      have hl := hordperm.length_eq
      rwa [List.length_map, List.length_range] at hl
    rw [hlen]
    exact hordperm

/-- C1 (witness): the three amended conjuncts evaluated on concrete stores —
create keeps `{0}` contiguous, a title update keeps the orders `[0]`, and the
`[C,A,B]` reorder of a three-element collection yields orders `0..2`. -/
theorem contiguity_after_mutations_witness :
    contiguousOrders (createLink none
      [⟨"A", "u", "a", "http://a.b", "predefined", "globe", 0, true, 0⟩]
      "N" ⟨"u", "t", "http://n.m", "predefined", "globe"⟩).2 "u" ∧
    ordersOf
      [⟨"A", "u", "x", "http://a.b", "predefined", "globe", 0, true, 0⟩] "u" =
      ordersOf [⟨"A", "u", "a", "http://a.b", "predefined", "globe", 0, true, 0⟩] "u" ∧
    contiguousOrders (reorderLinks (fun _ => none)
      [⟨"A", "u", "a", "http://a.b", "predefined", "globe", 0, true, 0⟩,
       ⟨"B", "u", "b", "http://b.c", "predefined", "globe", 1, false, 0⟩,
       ⟨"C", "u", "c", "http://c.d", "predefined", "globe", 2, true, 0⟩]
      "u" ["C", "A", "B"]).2 "u" := by
  refine ⟨?_, ?_, ?_⟩
  · exact contiguity_after_mutations.1
      [⟨"A", "u", "a", "http://a.b", "predefined", "globe", 0, true, 0⟩]
      "N" ⟨"u", "t", "http://n.m", "predefined", "globe"⟩ (by decide) (by decide)
  · exact contiguity_after_mutations.2.1 none
      [⟨"A", "u", "a", "http://a.b", "predefined", "globe", 0, true, 0⟩]
      "A" { title := some "x" } "u"
      (mapDbLinkToLinkItem ⟨"A", "u", "x", "http://a.b", "predefined", "globe", 0, true, 0⟩)
      [⟨"A", "u", "x", "http://a.b", "predefined", "globe", 0, true, 0⟩] (by decide)
  · exact contiguity_after_mutations.2.2
      [⟨"A", "u", "a", "http://a.b", "predefined", "globe", 0, true, 0⟩,
       ⟨"B", "u", "b", "http://b.c", "predefined", "globe", 1, false, 0⟩,
       ⟨"C", "u", "c", "http://c.d", "predefined", "globe", 2, true, 0⟩]
      "u" ["C", "A", "B"] (by decide) (by decide)

/-! ### Reorder failure policy -/

/-- A list is always led by itself. -/
theorem charsHaveLead_append (l t : List Char) : charsHaveLead l (l ++ t) = true := by
  induction l with
  | nil => rfl
  | cons c cs ih => simp [charsHaveLead, ih]

/-- The first reported error of a batch whose earlier writes all succeed. -/
theorem firstReorderError_append (fail : String → Option String) (ids1 : List String)
    (h1 : ∀ x ∈ ids1, fail x = none) (lid : String) (ids2 : List String) (m : String)
    (hm : fail lid = some m) :
    firstReorderError fail (ids1 ++ lid :: ids2) = some m := by
  induction ids1 with
  | nil =>
      show firstReorderError fail (lid :: ids2) = some m
      rw [firstReorderError, hm]
  | cons x xs ih =>
      show firstReorderError fail (x :: (xs ++ lid :: ids2)) = some m
      rw [firstReorderError, h1 x (List.mem_cons_self x xs)]
      exact ih (fun y hy => h1 y (List.mem_cons_of_mem x hy))

/-- C7: (a) a positional write whose id has no row owned by `ownerId` is
filtered out by the ownership condition and silently has no effect; (b) if
any write of the batch fails, the aggregate call fails with the
`ReorderFailed` message carrying the first error encountered (all earlier
writes having succeeded); (c) the dashboard caller keeps the optimistic list
when the batch succeeds and, on any failure, re-fetches the authoritative
list, so its local state equals what `list` returns against the resulting
store, discarding the optimistic reorder. -/
theorem reorderLinks_failure_policy :
    (∀ (db : Store) (lid uid : String) (ord : Int),
        (∀ r ∈ db, r.id = lid → r.user_id ≠ uid) →
        setOrderWrite db lid uid ord = db) ∧
    (∀ (fail : String → Option String) (db : Store) (uid : String)
        (ids1 ids2 : List String) (lid m : String),
        (∀ x ∈ ids1, fail x = none) → fail lid = some m →
        (reorderLinks fail db uid (ids1 ++ lid :: ids2)).1 =
          .error ("Failed to reorder links: " ++ m) ∧
        isReorderFailed ("Failed to reorder links: " ++ m) = true) ∧
    (∀ (fail : String → Option String) (db : Store) (pid : String)
        (reordered : List LinkItem),
        (firstReorderError fail (reordered.map (fun l => l.id)) = none →
          (handleReorderLinks fail db pid reordered).2 = reordered) ∧
        (∀ m, firstReorderError fail (reordered.map (fun l => l.id)) = some m →
          getLinks none (handleReorderLinks fail db pid reordered).1 pid =
            .ok (handleReorderLinks fail db pid reordered).2)) := by
  refine ⟨?_, ?_, ?_⟩
  · intro db lid uid ord hforeign
    rw [setOrderWrite]
    refine (List.map_congr_left ?_).trans (List.map_id db)
    intro r hr
    rw [if_neg]
    · rfl
    · intro hcond
      have h2 : r.id = lid ∧ r.user_id = uid := by simpa using hcond
      exact hforeign r hr h2.1 h2.2
  · intro fail db uid ids1 ids2 lid m h1 hm
    constructor
    · rw [reorderLinks, firstReorderError_append fail ids1 h1 lid ids2 m hm]
    · rw [isReorderFailed,
        show ("Failed to reorder links: " ++ m).data
          = "Failed to reorder links: ".data ++ m.data from rfl]
      exact charsHaveLead_append _ _
  · intro fail db pid reordered
    constructor
    · intro hnone
      rw [handleReorderLinks, reorderLinks, hnone]
    · intro m hsome
      rw [handleReorderLinks, reorderLinks, hsome]
      rfl

/-- C7 (witness): the three conjuncts evaluated concretely — a write for an
id owned by someone else leaves the store unchanged; a batch whose second
write fails reports `ReorderFailed` with that first failure; the caller keeps
the optimistic list on success and adopts the re-fetched authoritative list
on failure. -/
theorem reorderLinks_failure_policy_witness :
    setOrderWrite [⟨"A", "u", "a", "http://a.b", "predefined", "globe", 0, true, 0⟩]
        "A" "v" 5 =
      [⟨"A", "u", "a", "http://a.b", "predefined", "globe", 0, true, 0⟩] ∧
    (reorderLinks (fun lid => if lid == "B" then some "boom" else none)
        [⟨"A", "u", "a", "http://a.b", "predefined", "globe", 0, true, 0⟩]
        "u" (["A"] ++ "B" :: ["C"])).1 =
      .error ("Failed to reorder links: " ++ "boom") ∧
    (handleReorderLinks (fun _ => none)
        [⟨"A", "u", "a", "http://a.b", "predefined", "globe", 0, true, 0⟩]
        "u" [mapDbLinkToLinkItem ⟨"A", "u", "a", "http://a.b", "predefined", "globe", 9, true, 0⟩]).2 =
      [mapDbLinkToLinkItem ⟨"A", "u", "a", "http://a.b", "predefined", "globe", 9, true, 0⟩] ∧
    getLinks none (handleReorderLinks (fun lid => if lid == "A" then some "boom" else none)
        [⟨"A", "u", "a", "http://a.b", "predefined", "globe", 0, true, 0⟩]
        "u" [mapDbLinkToLinkItem ⟨"A", "u", "a", "http://a.b", "predefined", "globe", 9, true, 0⟩]).1 "u" =
      .ok (handleReorderLinks (fun lid => if lid == "A" then some "boom" else none)
        [⟨"A", "u", "a", "http://a.b", "predefined", "globe", 0, true, 0⟩]
        "u" [mapDbLinkToLinkItem ⟨"A", "u", "a", "http://a.b", "predefined", "globe", 9, true, 0⟩]).2 := by
  refine ⟨?_, ?_, ?_, ?_⟩
  · exact reorderLinks_failure_policy.1
      [⟨"A", "u", "a", "http://a.b", "predefined", "globe", 0, true, 0⟩]
      "A" "v" 5 (by decide)
  · exact (reorderLinks_failure_policy.2.1
      (fun lid => if lid == "B" then some "boom" else none)
      [⟨"A", "u", "a", "http://a.b", "predefined", "globe", 0, true, 0⟩]
      "u" ["A"] ["C"] "B" "boom" (by decide) (by decide)).1
  · exact (reorderLinks_failure_policy.2.2 (fun _ => none)
      [⟨"A", "u", "a", "http://a.b", "predefined", "globe", 0, true, 0⟩]
      "u" [mapDbLinkToLinkItem ⟨"A", "u", "a", "http://a.b", "predefined", "globe", 9, true, 0⟩]).1
      (by decide)
  · exact (reorderLinks_failure_policy.2.2
      (fun lid => if lid == "A" then some "boom" else none)
      [⟨"A", "u", "a", "http://a.b", "predefined", "globe", 0, true, 0⟩]
      "u" [mapDbLinkToLinkItem ⟨"A", "u", "a", "http://a.b", "predefined", "globe", 9, true, 0⟩]).2
      "boom" (by decide)

end LinkPage
